import Mathlib

/-!
Verification of the 88keys sight-reading trainer core.

A shallow embedding of the core of the 88keys repository:

* the pitch model (`src/lib/midi.ts`: `pitchToMidi`, `naturalPitchesInRange`),
* the deterministic MusicXML score generator (`src/lib/musicxml.ts`:
  `createRng`, `pick`, `serializeNote`, `serializeAttributes`, `buildMeasure`,
  `generateScore`),
* the sight-reading session state machine
  (`src/hooks/useSightReadingSession.ts`: `reset`, `handleNoteOn`,
  `handleNoteOff`),
* the MIDI input decoder (`src/hooks/useMidiInput.ts`: `handleMessage`),

followed by theorems settling the specification claims about them.

Modelling conventions:

* JavaScript 32-bit integer operations (`>>> 0`, `Math.imul`, `^`, `|`,
  `>>>`) are modelled on `Nat` as the corresponding operations on the
  unsigned 32-bit bit pattern, taking results `% 2^32` where overflow can
  occur.  For the splitmix32 PRNG every JS intermediate is an exact
  integer, so this is exact.
* `Math.floor(rng() * items.length)` is exact in IEEE doubles for the pool
  sizes reachable here (`out < 2^32`, `length ≤ 63`, so the product has
  fewer than 53 significand bits); it equals `out * length / 2^32` in
  natural-number division.
* JavaScript runtime failures (indexing an empty array and then
  dereferencing `undefined`, which throws a `TypeError`) are modelled with
  `Option`: a crashed run is `none`.  The unbounded `while` loop of
  `generateScore` is modelled with explicit fuel; fuel exhaustion (real
  divergence, which only happens for `notesPerMeasure ≤ 0`) is also `none`.
* A JS `Set<number>` is modelled as a duplicate-free `List Nat`:
  `has` is membership, `add` appends, `delete` filters the element out,
  `size` is the length.
-/

-- ---------------------------------------------------------------------------
-- Pitch model (src/lib/midi.ts)
-- ---------------------------------------------------------------------------

/-- The seven natural note names (`type NoteName = "C" | ... | "B"`). -/
inductive NoteName : Type
  | C | D | E | F | G | A | B
deriving DecidableEq, Repr

/-- A natural pitch: step plus octave (`interface Pitch`).  Octaves are
natural numbers; the code only ever constructs octaves 0–8. -/
structure Pitch : Type where
  step : NoteName
  octave : Nat
deriving DecidableEq, Repr

/-- `SEMITONE_OFFSET`: semitone offset of each natural note within an octave. -/
def SEMITONE_OFFSET : NoteName → Nat
  | .C => 0
  | .D => 2
  | .E => 4
  | .F => 5
  | .G => 7
  | .A => 9
  | .B => 11

/-- `NOTE_NAMES`: all natural note names in ascending chromatic order. -/
def NOTE_NAMES : List NoteName := [.C, .D, .E, .F, .G, .A, .B]

/-- `pitchToMidi`: converts a pitch (step + octave) to its MIDI note number. -/
def pitchToMidi (pitch : Pitch) : Nat :=
  (pitch.octave + 1) * 12 + SEMITONE_OFFSET pitch.step

/-- `naturalPitchesInRange`: all natural pitches whose MIDI numbers fall
within `[minMidi, maxMidi]`, enumerating octaves 0 through 8 and, inside
each octave, `NOTE_NAMES` in order. -/
def naturalPitchesInRange (minMidi maxMidi : Int) : List Pitch :=
  (List.range 9).flatMap (fun octave =>
    NOTE_NAMES.filterMap (fun step =>
      let midi : Int := pitchToMidi { step := step, octave := octave }
      if minMidi ≤ midi ∧ midi ≤ maxMidi then
        some { step := step, octave := octave }
      else none))

-- ---------------------------------------------------------------------------
-- Deterministic PRNG (src/lib/musicxml.ts, createRng)
-- ---------------------------------------------------------------------------

/-- `2^32`, the modulus of all JS 32-bit bit-pattern arithmetic. -/
def two32 : Nat := 4294967296

/-- One step of the splitmix32-variant PRNG from `createRng`.  Takes the
current 32-bit state, returns the new state and the 32-bit output `t`
(whose JS value is `t / 2^32 ∈ [0,1)`):

    state += 0x6d2b79f5;
    let t = state;
    t = Math.imul(t ^ (t >>> 15), t | 1);
    t ^= t + Math.imul(t ^ (t >>> 7), t | 61);
    return ((t ^ (t >>> 14)) >>> 0) / 4294967296;
-/
def rngNext (state : Nat) : Nat × Nat :=
  let s := (state + 0x6d2b79f5) % two32
  let t1 := ((Nat.xor s (s >>> 15)) * (s ||| 1)) % two32
  let inner := ((Nat.xor t1 (t1 >>> 7)) * (t1 ||| 61)) % two32
  let t2 := Nat.xor t1 ((t1 + inner) % two32)
  (s, Nat.xor t2 (t2 >>> 14))

/-- `pick`: `items[Math.floor(rng() * items.length)]`, with the PRNG output
`out` already drawn.  On an empty array the JS index expression yields
`undefined`, modelled as `none`. -/
def pick (items : List Pitch) (out : Nat) : Option Pitch :=
  items.get? (out * items.length / two32)

-- ---------------------------------------------------------------------------
-- MusicXML serialization (src/lib/musicxml.ts)
-- ---------------------------------------------------------------------------

/-- The serialized name of a note step. -/
def NoteName.str : NoteName → String
  | .C => "C"
  | .D => "D"
  | .E => "E"
  | .F => "F"
  | .G => "G"
  | .A => "A"
  | .B => "B"

/-- Clef selection (`type Clef = "treble" | "bass"`). -/
inductive Clef : Type
  | treble | bass
deriving DecidableEq, Repr

/-- `DIVISIONS`: MusicXML divisions per quarter note. -/
def DIVISIONS : Nat := 4

/-- `DURATION_TO_TYPE`: maps duration units to MusicXML type values. -/
def DURATION_TO_TYPE (d : Nat) : Option String :=
  if d = 2 then some "eighth"
  else if d = 4 then some "quarter"
  else if d = 8 then some "half"
  else none

/-- `serializeNote`: serializes a single MusicXML note element. -/
def serializeNote (pitch : Pitch) (duration : Nat) : String :=
  let ty := (DURATION_TO_TYPE duration).getD "quarter"
  String.intercalate "\n"
    [ "        <note>",
      "          <pitch>",
      "            <step>" ++ pitch.step.str ++ "</step>",
      "            <octave>" ++ toString pitch.octave ++ "</octave>",
      "          </pitch>",
      "          <duration>" ++ toString duration ++ "</duration>",
      "          <type>" ++ ty ++ "</type>",
      "        </note>" ]

/-- `serializeAttributes`: the attributes block of the first measure. -/
def serializeAttributes (clef : Clef) : String :=
  let sign := if clef = Clef.treble then "G" else "F"
  let line := if clef = Clef.treble then 2 else 4
  String.intercalate "\n"
    [ "        <attributes>",
      "          <divisions>" ++ toString DIVISIONS ++ "</divisions>",
      "          <key><fifths>0</fifths></key>",
      "          <time><beats>4</beats><beat-type>4</beat-type></time>",
      "          <clef><sign>" ++ sign ++ "</sign><line>" ++ toString line
        ++ "</line></clef>",
      "        </attributes>" ]

-- ---------------------------------------------------------------------------
-- Measure and score generation (src/lib/musicxml.ts)
-- ---------------------------------------------------------------------------

/-- Result of generating one measure (`interface MeasureResult`). -/
structure MeasureResult : Type where
  xml : String
  midiNotes : List Nat
deriving DecidableEq, Repr

/-- The pitch-drawing loop of `buildMeasure`:
`for (let i = 0; i < noteCount; i++) pitches.push(pick(pitchPool, rng))`.
Threads the PRNG state; a failed pick (empty pool) poisons the result to
`none`, modelling the later `TypeError` crash of the JS run. -/
def drawPitches (pool : List Pitch) : Nat → Nat → Option (List Pitch) × Nat
  | state, 0 => (some [], state)
  | state, Nat.succ n =>
    let r := rngNext state
    let rest := drawPitches pool r.1 n
    match pick pool r.2, rest.1 with
    | some p, some ps => (some (p :: ps), rest.2)
    | _, _ => (none, rest.2)

/-- `buildMeasure`: generates a single measure of random quarter notes. -/
def buildMeasure (pitchPool : List Pitch) (noteCount : Nat)
    (measureNumber : Nat) (clef : Clef) (isFirstMeasure : Bool)
    (state : Nat) : Option MeasureResult × Nat :=
  let d := drawPitches pitchPool state noteCount
  match d.1 with
  | none => (none, d.2)
  | some pitches =>
    let midiNotes := pitches.map pitchToMidi
    let attributes :=
      if isFirstMeasure then "\n" ++ serializeAttributes clef else ""
    let noteElements :=
      String.intercalate "\n" (pitches.map (fun p => serializeNote p DIVISIONS))
    let xml := String.intercalate "\n"
      [ "      <measure number=\"" ++ toString measureNumber ++ "\">"
          ++ attributes,
        noteElements,
        "      </measure>" ]
    (some { xml := xml, midiNotes := midiNotes }, d.2)

/-- `RangePreset` (fields used by generation; the label is irrelevant). -/
structure RangePreset : Type where
  minMidi : Int
  maxMidi : Int
  clef : Clef
deriving DecidableEq, Repr

/-- `ScoreConfig`, with the seed explicitly given (the claims concern
explicit seeds; the `Date.now()` default is outside the model).  `seed` is
the non-negative integer whose `>>> 0` coercion seeds the PRNG. -/
structure ScoreConfig : Type where
  rangePreset : RangePreset
  notesPerMeasure : Int
  totalNotes : Int
  seed : Nat
deriving DecidableEq, Repr

/-- `GeneratedScore`: the output of score generation. -/
structure GeneratedScore : Type where
  xml : String
  expectedNotes : List Nat
deriving DecidableEq, Repr

/-- The `while (remaining > 0)` loop of `generateScore`, with explicit
fuel.  Each iteration builds one measure of
`count = min notesPerMeasure remaining` notes.  Returns the measure XML
fragments and the concatenated expected notes; `none` models a crash
(empty pool) or divergence (fuel exhaustion, which for the fuel chosen in
`generateScore` only happens when `notesPerMeasure ≤ 0`). -/
def genLoop (pool : List Pitch) (notesPerMeasure : Int) (clef : Clef) :
    Nat → Int → Nat → Nat → Option (List String × List Nat)
  | 0, remaining, _, _ => if 0 < remaining then none else some ([], [])
  | Nat.succ fuel, remaining, measureNumber, state =>
    if 0 < remaining then
      let count := min notesPerMeasure remaining
      let b := buildMeasure pool count.toNat measureNumber clef
        (measureNumber == 1) state
      match b.1 with
      | none => none
      | some mr =>
        match genLoop pool notesPerMeasure clef fuel (remaining - count)
            (measureNumber + 1) b.2 with
        | none => none
        | some (xs, notes) => some (mr.xml :: xs, mr.midiNotes ++ notes)
    else some ([], [])

/-- `generateScore`: generates a complete MusicXML score filled with random
notes.  The fuel `totalNotes.toNat` suffices for every terminating JS run:
when `notesPerMeasure ≥ 1` each loop iteration consumes at least one note. -/
def generateScore (config : ScoreConfig) : Option GeneratedScore :=
  let state0 := config.seed % two32
  let pool := naturalPitchesInRange config.rangePreset.minMidi
    config.rangePreset.maxMidi
  match genLoop pool config.notesPerMeasure config.rangePreset.clef
      config.totalNotes.toNat config.totalNotes 1 state0 with
  | none => none
  | some (measureXmls, expectedNotes) =>
    let xml := String.intercalate "\n"
      [ "<?xml version=\"1.0\" encoding=\"UTF-8\"?>",
        "<!DOCTYPE score-partwise PUBLIC \"-//Recordare//DTD MusicXML 3.1 Partwise//EN\"",
        "  \"http://www.musicxml.org/dtds/partwise.dtd\">",
        "<score-partwise version=\"3.1\">",
        "  <part-list>",
        "    <score-part id=\"P1\"><part-name>Music</part-name></score-part>",
        "  </part-list>",
        "  <part id=\"P1\">",
        String.intercalate "\n" measureXmls,
        "  </part>",
        "</score-partwise>" ]
    some { xml := xml, expectedNotes := expectedNotes }

-- ---------------------------------------------------------------------------
-- Session state machine (src/hooks/useSightReadingSession.ts)
-- ---------------------------------------------------------------------------

/-- Result of pressing a key (`type NoteOnResult`). -/
inductive NoteOnResult : Type
  | correct | wrong | complete
deriving DecidableEq, Repr

/-- Result of releasing a key (`type NoteOffResult`). -/
inductive NoteOffResult : Type
  | advanced | complete | idle
deriving DecidableEq, Repr

/-- The session's mutable refs, as an explicit state record. -/
structure SessionState : Type where
  expectedNotes : List Int
  cursor : Nat
  armedNote : Option Int
deriving DecidableEq, Repr

/-- `reset`: load a new sequence of expected notes, resetting all state. -/
def resetSession (notes : List Int) : SessionState :=
  { expectedNotes := notes, cursor := 0, armedNote := none }

/-- `handleNoteOn`: handle a MIDI Note On event; returns the result and the
updated state. -/
def handleNoteOn (s : SessionState) (midiNote : Int) :
    NoteOnResult × SessionState :=
  -- Session already complete.
  if h : s.expectedNotes.length ≤ s.cursor then (.complete, s)
  else
    match s.armedNote with
    -- A note is already armed — only that note matters until released.
    | some a => (if midiNote = a then .correct else .wrong, s)
    | none =>
      -- Check whether the pressed key matches the expected note.
      if midiNote = s.expectedNotes.get ⟨s.cursor, Nat.lt_of_not_le h⟩ then
        (.correct, { s with armedNote := some midiNote })
      else (.wrong, s)

/-- `handleNoteOff`: handle a MIDI Note Off event; returns the result and
the updated state. -/
def handleNoteOff (s : SessionState) (midiNote : Int) :
    NoteOffResult × SessionState :=
  match s.armedNote with
  | none => (.idle, s)
  | some a =>
    -- Only the armed note's release advances the cursor.
    if midiNote ≠ a then (.idle, s)
    else
      let s2 : SessionState :=
        { s with armedNote := none, cursor := s.cursor + 1 }
      (if s.expectedNotes.length ≤ s2.cursor then .complete else .advanced, s2)

/-- A press or release event fed to the session. -/
inductive SessionEv : Type
  | noteOn (k : Int)
  | noteOff (k : Int)
deriving DecidableEq, Repr

/-- The state transition of one session event (discarding the result). -/
def stepEv (s : SessionState) (e : SessionEv) : SessionState :=
  match e with
  | .noteOn k => (handleNoteOn s k).2
  | .noteOff k => (handleNoteOff s k).2

/-- Session states reachable from some `reset` via any sequence of
`handleNoteOn` / `handleNoteOff` calls. -/
inductive ReachableSession : SessionState → Prop where
  | reset (notes : List Int) : ReachableSession (resetSession notes)
  | noteOn (s : SessionState) (k : Int) :
      ReachableSession s → ReachableSession (handleNoteOn s k).2
  | noteOff (s : SessionState) (k : Int) :
      ReachableSession s → ReachableSession (handleNoteOff s k).2

-- ---------------------------------------------------------------------------
-- MIDI input decoder (src/hooks/useMidiInput.ts)
-- ---------------------------------------------------------------------------

/-- `COMMAND_MASK`: bitmask extracting the command from a status byte. -/
def COMMAND_MASK : Nat := 0xf0

/-- `NOTE_ON`: MIDI command nibble for a key press. -/
def NOTE_ON : Nat := 0x90

/-- `NOTE_OFF`: MIDI command nibble for a key release. -/
def NOTE_OFF : Nat := 0x80

/-- A decoded key event dispatched by the decoder: the `onNoteOn`,
`onNoteOff` and `onAllNotesOff` callback invocations. -/
inductive MidiEvent : Type
  | press (note velocity : Nat)
  | release (note : Nat)
  | allReleased
deriving DecidableEq, Repr

/-- `handleMessage`: processes one raw MIDI message against the held-note
set, returning the new held set and the emitted events in order.  Messages
shorter than 3 bytes are dropped. -/
def handleMessage (held : List Nat) (data : List Nat) :
    List Nat × List MidiEvent :=
  match data with
  | statusByte :: note :: velocity :: _ =>
    let command := statusByte &&& COMMAND_MASK
    -- Key released: explicit Note Off, or Note On with velocity 0.
    if command = NOTE_OFF ∨ (command = NOTE_ON ∧ velocity = 0) then
      let held2 := held.filter (fun n => n != note)
      (held2, MidiEvent.release note ::
        (if held2.length = 0 then [MidiEvent.allReleased] else []))
    -- Key pressed: only fire once per key (ignore repeated Note On).
    else if command = NOTE_ON ∧ note ∉ held then
      (held ++ [note], [MidiEvent.press note velocity])
    else (held, [])
  | _ => (held, [])

/-- Folds a stream of raw messages through `handleMessage`, starting from a
given held set; returns the final held set and all emitted events. -/
def decodeSteps (held : List Nat) : List (List Nat) → List Nat × List MidiEvent
  | [] => (held, [])
  | m :: rest =>
    let r1 := handleMessage held m
    let r2 := decodeSteps r1.1 rest
    (r2.1, r1.2 ++ r2.2)

/-- A full decoder run from the initial empty held set. -/
def decodeStream (msgs : List (List Nat)) : List Nat × List MidiEvent :=
  decodeSteps [] msgs

-- Concrete behavior of the embedded definitions on the spec's examples:
example : naturalPitchesInRange 60 62 = [⟨.C, 4⟩, ⟨.D, 4⟩] := by decide
example : naturalPitchesInRange 61 61 = [] := by decide
example : pitchToMidi ⟨.C, 4⟩ = 60 := by decide
example :
    (decodeStream [[0x90, 60, 64], [0x90, 60, 64]]).2 =
      [MidiEvent.press 60 64] := by decide
example :
    (decodeStream [[0x90, 60, 64], [0x90, 60, 0]]).2 =
      [MidiEvent.press 60 64, MidiEvent.release 60, MidiEvent.allReleased] := by
  decide
example :
    (decodeStream [[0x80, 60, 64]]).2 =
      [MidiEvent.release 60, MidiEvent.allReleased] := by decide

-- ---------------------------------------------------------------------------
-- Session state machine: claims C4, C5, C6, C10
-- ---------------------------------------------------------------------------

/-- C4: `handleNoteOn` behaves exactly as specified, case by case (the
three cases are guarded in order, as in the source): at or past the end it
returns `complete` and changes nothing; with an armed note it returns
`correct` iff the pressed key equals the armed note, changing nothing; with
no armed note it returns `correct` and arms the key iff the key matches
`expectedNotes[cursor]`, and otherwise returns `wrong` with cursor and
armed note unchanged. -/
theorem C4_handleNoteOn_cases (s : SessionState) (k : Int) :
    (s.expectedNotes.length ≤ s.cursor →
      handleNoteOn s k = (NoteOnResult.complete, s)) ∧
    (∀ a, s.cursor < s.expectedNotes.length → s.armedNote = some a →
      handleNoteOn s k =
        ((if k = a then NoteOnResult.correct else NoteOnResult.wrong), s)) ∧
    (∀ (hlt : s.cursor < s.expectedNotes.length), s.armedNote = none →
      (k = s.expectedNotes.get ⟨s.cursor, hlt⟩ →
        handleNoteOn s k =
          (NoteOnResult.correct, { s with armedNote := some k })) ∧
      (k ≠ s.expectedNotes.get ⟨s.cursor, hlt⟩ →
        handleNoteOn s k = (NoteOnResult.wrong, s))) := by
  refine ⟨?_, ?_, ?_⟩
  · intro hle
    simp [handleNoteOn, hle]
  · intro a hlt ha
    simp [handleNoteOn, Nat.not_le_of_lt hlt, ha]
  · intro hlt ha
    constructor
    · intro hk
      simp [handleNoteOn, Nat.not_le_of_lt hlt, ha, hk]
    · intro hne
      simp [handleNoteOn, Nat.not_le_of_lt hlt, ha]
      simpa using hne

/-- Witness for C4 at a concrete state: pressing 60 with
`expectedNotes = [60]`, cursor 0, nothing armed, arms 60. -/
theorem C4_handleNoteOn_cases_witness :
    handleNoteOn (resetSession [60]) 60 =
      (NoteOnResult.correct,
        { expectedNotes := [60], cursor := 0, armedNote := some 60 }) :=
  ((C4_handleNoteOn_cases (resetSession [60]) 60).2.2 (by decide) rfl).1 rfl

/-- C5 counterexample: in the session state
`⟨expectedNotes := [], cursor := 0, armedNote := some 5⟩` (which violates
the reachable-state invariant but is a session state), releasing 5 returns
`complete` although the new cursor (1) does not equal
`expectedNotes.length` (0) — the claim predicts `advanced` there. -/
theorem C5_counterexample :
    (handleNoteOff { expectedNotes := [], cursor := 0, armedNote := some 5 }
        5).1 = NoteOffResult.complete ∧
      ¬ ((0 : Nat) + 1 = ([] : List Int).length) := by
  constructor
  · rfl
  · decide

/-- C5 (amended): `handleNoteOff` returns `idle` and changes no state when
no note is armed or the key differs from the armed note; when the key
equals the armed note it clears the armed note, increments the cursor by
exactly 1, and returns `complete` iff the new cursor is at least
`expectedNotes.length` (equal, on states satisfying the reachable-state
invariant), and `advanced` otherwise. -/
theorem C5_handleNoteOff_cases (s : SessionState) (k : Int) :
    (s.armedNote = none → handleNoteOff s k = (NoteOffResult.idle, s)) ∧
    (∀ a, s.armedNote = some a → k ≠ a →
      handleNoteOff s k = (NoteOffResult.idle, s)) ∧
    (s.armedNote = some k →
      handleNoteOff s k =
        ((if s.expectedNotes.length ≤ s.cursor + 1 then NoteOffResult.complete
          else NoteOffResult.advanced),
         { s with armedNote := none, cursor := s.cursor + 1 })) := by
  refine ⟨?_, ?_, ?_⟩
  · intro ha; simp [handleNoteOff, ha]
  · intro a ha hne; simp [handleNoteOff, ha, hne]
  · intro ha; simp [handleNoteOff, ha]

/-- Witness for C5 at a concrete state: releasing the armed note 60 in
`⟨[60], 0, some 60⟩` completes the session with cursor 1. -/
theorem C5_handleNoteOff_cases_witness :
    handleNoteOff { expectedNotes := [60], cursor := 0, armedNote := some 60 }
        60 =
      (NoteOffResult.complete,
        { expectedNotes := [60], cursor := 1, armedNote := none }) :=
  (C5_handleNoteOff_cases
    { expectedNotes := [60], cursor := 0, armedNote := some 60 } 60).2.2 rfl

/-- A single press never changes the cursor. -/
theorem handleNoteOn_cursor (s : SessionState) (k : Int) :
    (handleNoteOn s k).2.cursor = s.cursor := by
  unfold handleNoteOn
  split
  · rfl
  · cases ha : s.armedNote with
    | none => dsimp only; split <;> rfl
    | some a => rfl

/-- A single press never changes the expected-note list. -/
theorem handleNoteOn_expected (s : SessionState) (k : Int) :
    (handleNoteOn s k).2.expectedNotes = s.expectedNotes := by
  unfold handleNoteOn
  split
  · rfl
  · cases ha : s.armedNote with
    | none => dsimp only; split <;> rfl
    | some a => rfl

/-- If a press returns `correct`, the pressed key ends up armed. -/
theorem handleNoteOn_correct_armed (s : SessionState) (k : Int)
    (hc : (handleNoteOn s k).1 = NoteOnResult.correct) :
    (handleNoteOn s k).2.armedNote = some k := by
  revert hc
  unfold handleNoteOn
  split
  · intro hc; simp at hc
  · cases ha : s.armedNote with
    | some a =>
      dsimp only
      by_cases hk : k = a
      · intro _; rw [ha, hk]
      · simp [hk]
    | none =>
      dsimp only
      split
      · intro _; rfl
      · intro hc; simp at hc

/-- Releasing the armed note clears it and advances the cursor by one. -/
theorem handleNoteOff_armed (s : SessionState) (k : Int)
    (ha : s.armedNote = some k) :
    (handleNoteOff s k).2 =
      { s with armedNote := none, cursor := s.cursor + 1 } := by
  simp [handleNoteOff, ha]

/-- A single session event can only keep or increase the cursor. -/
theorem stepEv_cursor_le (s : SessionState) (e : SessionEv) :
    s.cursor ≤ (stepEv s e).cursor := by
  cases e with
  | noteOn k => exact le_of_eq (handleNoteOn_cursor s k).symm
  | noteOff k =>
    unfold stepEv handleNoteOff
    cases ha : s.armedNote with
    | none => exact le_refl _
    | some a =>
      dsimp only
      split
      · exact le_refl _
      · exact Nat.le_succ _

/-- C6: within one reset epoch, the cursor is non-decreasing (one step, and
along any event sequence), a press alone never changes it, and a correct
press followed by its matching release advances it by exactly 1. -/
theorem C6_cursor_monotone :
    (∀ (s : SessionState) (e : SessionEv), s.cursor ≤ (stepEv s e).cursor) ∧
    (∀ (evs : List SessionEv) (s : SessionState),
      s.cursor ≤ (evs.foldl stepEv s).cursor) ∧
    (∀ (s : SessionState) (k : Int), (handleNoteOn s k).2.cursor = s.cursor) ∧
    (∀ (s : SessionState) (k : Int),
      (handleNoteOn s k).1 = NoteOnResult.correct →
      (handleNoteOff (handleNoteOn s k).2 k).2.cursor = s.cursor + 1) := by
  refine ⟨stepEv_cursor_le, ?_, handleNoteOn_cursor, ?_⟩
  · intro evs
    induction evs with
    | nil => intro s; exact le_refl _
    | cons e rest ih =>
      intro s
      exact le_trans (stepEv_cursor_le s e) (ih (stepEv s e))
  · intro s k hc
    rw [handleNoteOff_armed _ _ (handleNoteOn_correct_armed s k hc)]
    dsimp only
    rw [handleNoteOn_cursor]

/-- Witness for C6's press-release clause: from `reset [60]`, pressing and
releasing 60 moves the cursor from 0 to 1. -/
theorem C6_cursor_monotone_witness :
    (handleNoteOff (handleNoteOn (resetSession [60]) 60).2 60).2.cursor =
      (resetSession [60]).cursor + 1 :=
  C6_cursor_monotone.2.2.2 (resetSession [60]) 60 rfl

/-- The armed-note invariant of a session state: an armed note is always
the expected note at the cursor (in particular the cursor is in bounds). -/
def ArmedInv (s : SessionState) : Prop :=
  ∀ a, s.armedNote = some a → s.expectedNotes.get? s.cursor = some a

/-- `handleNoteOn` preserves the armed-note invariant. -/
theorem armedInv_noteOn (s0 : SessionState) (k : Int) (ih : ArmedInv s0) :
    ArmedInv (handleNoteOn s0 k).2 := by
  intro a
  unfold handleNoteOn
  split
  · exact ih a
  · rename_i hnle
    cases h0 : s0.armedNote with
    | some b => exact ih a
    | none =>
      dsimp only
      split
      · rename_i hk
        intro ha
        dsimp only at ha ⊢
        rw [List.get?_eq_get (Nat.lt_of_not_le hnle), ← hk,
          Option.some.inj ha]
      · exact ih a

/-- `handleNoteOff` preserves the armed-note invariant. -/
theorem armedInv_noteOff (s0 : SessionState) (k : Int) (ih : ArmedInv s0) :
    ArmedInv (handleNoteOff s0 k).2 := by
  intro a
  unfold handleNoteOff
  cases h0 : s0.armedNote with
  | none => exact ih a
  | some b =>
    dsimp only
    split
    · exact ih a
    · intro ha
      dsimp only at ha
      exact absurd ha (by simp)

/-- C10: in every reachable session state, an armed note implies the cursor
is in bounds and the armed note is the expected note at the cursor; hence a
session at the terminal position never has an armed note. -/
theorem C10_armed_invariant (s : SessionState) (hs : ReachableSession s) :
    (∀ a, s.armedNote = some a → s.expectedNotes.get? s.cursor = some a) ∧
    (s.expectedNotes.length ≤ s.cursor → s.armedNote = none) := by
  have main : ArmedInv s := by
    induction hs with
    | reset notes => intro a ha; exact absurd ha (by simp [resetSession])
    | noteOn s0 k hs0 ih => exact armedInv_noteOn s0 k ih
    | noteOff s0 k hs0 ih => exact armedInv_noteOff s0 k ih
  refine ⟨main, ?_⟩
  intro hle
  cases ha : s.armedNote with
  | none => rfl
  | some a =>
    obtain ⟨hlt, -⟩ := List.get?_eq_some.mp (main a ha)
    omega

/-- Witness for C10 at a concrete reachable state: after pressing 60 from
`reset [60]`, the armed note 60 is the expected note at the cursor. -/
theorem C10_armed_invariant_witness :
    ([60] : List Int).get? 0 = some 60 :=
  (C10_armed_invariant (handleNoteOn (resetSession [60]) 60).2
    (ReachableSession.noteOn (resetSession [60]) 60
      (ReachableSession.reset [60]))).1 60 rfl

-- ---------------------------------------------------------------------------
-- Pitch model: claim C7
-- ---------------------------------------------------------------------------

/-- The full enumeration of `naturalPitchesInRange` before range filtering:
octaves 0–8, steps in `NOTE_NAMES` order. -/
def allNaturalPitches : List Pitch :=
  (List.range 9).flatMap (fun octave =>
    NOTE_NAMES.map (fun step => { step := step, octave := octave }))

/-- The per-octave inner loop of `naturalPitchesInRange` is a map followed
by a range filter. -/
theorem inner_filterMap_eq (minMidi maxMidi : Int) (octave : Nat)
    (l : List NoteName) :
    l.filterMap (fun step =>
      let midi : Int := pitchToMidi { step := step, octave := octave }
      if minMidi ≤ midi ∧ midi ≤ maxMidi then
        some { step := step, octave := octave }
      else none) =
    (l.map (fun step => { step := step, octave := octave })).filter
      (fun p => decide (minMidi ≤ (pitchToMidi p : Int) ∧
        (pitchToMidi p : Int) ≤ maxMidi)) := by
  induction l with
  | nil => rfl
  | cons a t ih =>
    by_cases h : minMidi ≤ (pitchToMidi { step := a, octave := octave } : Int) ∧
        (pitchToMidi { step := a, octave := octave } : Int) ≤ maxMidi <;>
      simp [List.filterMap_cons, List.filter_cons, h, ih]

/-- Filtering after a flatMap is flatMapping the filtered pieces. -/
theorem flatMap_filter {α β : Type} (f : α → List β) (q : β → Bool)
    (l : List α) :
    (l.flatMap f).filter q = l.flatMap (fun a => (f a).filter q) := by
  induction l with
  | nil => rfl
  | cons a t ih => simp [List.flatMap_cons, List.filter_append, ih]

/-- `naturalPitchesInRange` is the range filter of the full enumeration. -/
theorem naturalPitchesInRange_eq_filter (minMidi maxMidi : Int) :
    naturalPitchesInRange minMidi maxMidi =
      allNaturalPitches.filter (fun p =>
        decide (minMidi ≤ (pitchToMidi p : Int) ∧
          (pitchToMidi p : Int) ≤ maxMidi)) := by
  unfold naturalPitchesInRange allNaturalPitches
  rw [flatMap_filter]
  congr 1
  funext octave
  exact inner_filterMap_eq minMidi maxMidi octave NOTE_NAMES

/-- Membership in the full enumeration is exactly octave ≤ 8. -/
theorem mem_allNaturalPitches (p : Pitch) :
    p ∈ allNaturalPitches ↔ p.octave < 9 := by
  constructor
  · intro h
    simp only [allNaturalPitches, List.mem_flatMap, List.mem_range,
      List.mem_map] at h
    obtain ⟨o, ho, s, _, hp⟩ := h
    rw [← hp]
    exact ho
  · intro h
    simp only [allNaturalPitches, List.mem_flatMap, List.mem_range,
      List.mem_map]
    refine ⟨p.octave, h, p.step, ?_, rfl⟩
    cases hs : p.step <;> simp [NOTE_NAMES]

/-- The full enumeration is strictly ascending in MIDI number. -/
theorem pairwise_allNaturalPitches :
    allNaturalPitches.Pairwise (fun a b => pitchToMidi a < pitchToMidi b) := by
  decide

/-- C7: `naturalPitchesInRange minMidi maxMidi` contains exactly the
natural pitches with octave in 0..8 whose MIDI key-number lies in the
inclusive range, in strictly ascending key-number order; in particular
`naturalPitchesInRange 60 62 = [{C,4},{D,4}]` and
`naturalPitchesInRange 61 61 = []`. -/
theorem C7_naturalPitchesInRange_spec :
    (∀ (minMidi maxMidi : Int) (p : Pitch),
      p ∈ naturalPitchesInRange minMidi maxMidi ↔
        (p.octave ≤ 8 ∧ minMidi ≤ (pitchToMidi p : Int) ∧
          (pitchToMidi p : Int) ≤ maxMidi)) ∧
    (∀ (minMidi maxMidi : Int),
      (naturalPitchesInRange minMidi maxMidi).Pairwise
        (fun a b => pitchToMidi a < pitchToMidi b)) ∧
    naturalPitchesInRange 60 62 =
      [{ step := .C, octave := 4 }, { step := .D, octave := 4 }] ∧
    naturalPitchesInRange 61 61 = [] := by
  refine ⟨?_, ?_, by decide, by decide⟩
  · intro mn mx p
    rw [naturalPitchesInRange_eq_filter, List.mem_filter,
      mem_allNaturalPitches]
    simp [Nat.lt_succ_iff, and_assoc]
  · intro mn mx
    rw [naturalPitchesInRange_eq_filter]
    exact pairwise_allNaturalPitches.filter _

-- ---------------------------------------------------------------------------
-- Decoder: claims C8, C9
-- ---------------------------------------------------------------------------

/-- How one decoded event changes whether key `k` is held, as seen from the
emitted event stream. -/
def evUpd (k : Nat) (h : Bool) : MidiEvent → Bool
  | .press n _ => if n = k then true else h
  | .release n => if n = k then false else h
  | .allReleased => h

/-- Whether key `k` is held after a list of decoded events, starting from
held-state `h`. -/
def heldAfter (k : Nat) (h : Bool) (evs : List MidiEvent) : Bool :=
  evs.foldl (evUpd k) h

/-- Well-formedness of an event stream with respect to key `k`, starting
from held-state `h`: a `press k` event only occurs when `k` is not held,
and marks it held until the next `release k`.  This implies that no two
`press k` events occur without an intervening `release k`. -/
def okSeq (k : Nat) : Bool → List MidiEvent → Bool
  | _, [] => true
  | h, .press n _ :: rest =>
    if n = k then !h && okSeq k true rest else okSeq k h rest
  | h, .release n :: rest =>
    if n = k then okSeq k false rest else okSeq k h rest
  | h, .allReleased :: rest => okSeq k h rest

theorem okSeq_append (k : Nat) (a : List MidiEvent) :
    ∀ (h : Bool) (b : List MidiEvent),
      okSeq k h (a ++ b) = (okSeq k h a && okSeq k (heldAfter k h a) b) := by
  induction a with
  | nil => intro h b; simp [okSeq, heldAfter]
  | cons e t ih =>
    intro h b
    cases e with
    | press n v =>
      by_cases hn : n = k <;>
        simp [okSeq, heldAfter, evUpd, hn, ih, Bool.and_assoc]
    | release n =>
      by_cases hn : n = k <;>
        simp [okSeq, heldAfter, evUpd, hn, ih]
    | allReleased => simp [okSeq, heldAfter, evUpd, ih]

/-- The events emitted for one message are well-formed for every key, and
track the held set faithfully. -/
theorem handleMessage_okSeq (held data : List Nat) (k : Nat) :
    okSeq k (decide (k ∈ held)) (handleMessage held data).2 = true ∧
    heldAfter k (decide (k ∈ held)) (handleMessage held data).2 =
      decide (k ∈ (handleMessage held data).1) := by
  match data with
  | [] => simp [handleMessage, heldAfter, okSeq]
  | [s] => simp [handleMessage, heldAfter, okSeq]
  | [s, n] => simp [handleMessage, heldAfter, okSeq]
  | s :: n :: v :: rest =>
    simp only [handleMessage]
    by_cases hrel : s &&& COMMAND_MASK = NOTE_OFF ∨
        (s &&& COMMAND_MASK = NOTE_ON ∧ v = 0)
    · rw [if_pos hrel]
      dsimp only
      by_cases hn : n = k
      · subst hn
        constructor
        · by_cases hz : (held.filter (fun x => x != n)).length = 0 <;>
            simp [okSeq, hz]
        · by_cases hz : (held.filter (fun x => x != n)).length = 0 <;>
            simp [heldAfter, evUpd, hz, List.mem_filter]
      · have hkn : k ≠ n := fun h => hn h.symm
        constructor
        · by_cases hz : (held.filter (fun x => x != n)).length = 0 <;>
            simp [okSeq, hn, hz]
        · by_cases hz : (held.filter (fun x => x != n)).length = 0 <;>
            simp [heldAfter, evUpd, hn, hz, List.mem_filter, hkn]
    · rw [if_neg hrel]
      by_cases hpr : s &&& COMMAND_MASK = NOTE_ON ∧ n ∉ held
      · rw [if_pos hpr]
        dsimp only
        by_cases hn : n = k
        · subst hn
          have : (n ∈ held) = False := by simp [hpr.2]
          constructor
          · simp [okSeq, this]
          · simp [heldAfter, evUpd, this]
        · have hkn : k ≠ n := fun h => hn h.symm
          constructor
          · simp [okSeq, hn]
          · simp [heldAfter, evUpd, hn, hkn]
      · rw [if_neg hpr]
        simp [okSeq, heldAfter]

/-- Every full decoder run emits, for every key, a well-formed event
stream. -/
theorem decodeSteps_okSeq (k : Nat) :
    ∀ (msgs : List (List Nat)) (held : List Nat),
      okSeq k (decide (k ∈ held)) (decodeSteps held msgs).2 = true := by
  intro msgs
  induction msgs with
  | nil => intro held; rfl
  | cons m rest ih =>
    intro held
    have h1 := handleMessage_okSeq held m k
    show okSeq k _
      ((handleMessage held m).2 ++ (decodeSteps (handleMessage held m).1 rest).2)
        = true
    rw [okSeq_append, h1.1, h1.2, ih (handleMessage held m).1]
    rfl

/-- If key `k` goes from held to not-held over a stretch of events, that
stretch contains a `release k`. -/
theorem heldAfter_false_release (k : Nat) :
    ∀ (ys : List MidiEvent), heldAfter k true ys = false →
      MidiEvent.release k ∈ ys := by
  intro ys
  induction ys with
  | nil => intro h; simp [heldAfter] at h
  | cons e t ih =>
    intro h
    cases e with
    | press n v =>
      have hupd : evUpd k true (.press n v) = true := by
        by_cases hn : n = k <;> simp [evUpd, hn]
      rw [heldAfter, List.foldl_cons, hupd] at h
      exact List.mem_cons_of_mem _ (ih h)
    | release n =>
      by_cases hn : n = k
      · subst hn; exact List.mem_cons_self _ _
      · have hupd : evUpd k true (.release n) = true := by simp [evUpd, hn]
        rw [heldAfter, List.foldl_cons, hupd] at h
        exact List.mem_cons_of_mem _ (ih h)
    | allReleased =>
      rw [heldAfter, List.foldl_cons] at h
      exact List.mem_cons_of_mem _ (ih h)

/-- C8: for every raw message stream, between a press event for key `k` and
the next press event for `k` there is a release event for `k` (no duplicate
press while held); a press-class message with nonzero velocity for an
already-held key emits nothing and changes nothing; and a press-class
message with velocity 0 is treated as a release: it emits a `release`
event (plus possibly `allReleased`) and never a press event. -/
theorem C8_decoder_no_duplicate_press :
    (∀ (msgs : List (List Nat)) (k v1 v2 : Nat) (xs ys zs : List MidiEvent),
      (decodeStream msgs).2 =
        xs ++ MidiEvent.press k v1 :: (ys ++ MidiEvent.press k v2 :: zs) →
      MidiEvent.release k ∈ ys) ∧
    (∀ (held : List Nat) (s n v : Nat) (rest : List Nat),
      s &&& COMMAND_MASK = NOTE_ON → v ≠ 0 → n ∈ held →
      handleMessage held (s :: n :: v :: rest) = (held, [])) ∧
    (∀ (held : List Nat) (s n : Nat) (rest : List Nat),
      s &&& COMMAND_MASK = NOTE_ON →
      (handleMessage held (s :: n :: 0 :: rest)).2 =
        MidiEvent.release n ::
          (if (held.filter (fun x => x != n)).length = 0 then
            [MidiEvent.allReleased] else []) ∧
      (∀ m w, MidiEvent.press m w ∉
        (handleMessage held (s :: n :: 0 :: rest)).2)) := by
  refine ⟨?_, ?_, ?_⟩
  · intro msgs k v1 v2 xs ys zs heq
    have hok := decodeSteps_okSeq k msgs []
    have hok2 : okSeq k false
        (xs ++ MidiEvent.press k v1 :: (ys ++ MidiEvent.press k v2 :: zs)) =
          true := by
      rw [← heq]; exact hok
    rw [okSeq_append] at hok2
    have h3 := (Bool.and_eq_true _ _).mp hok2 |>.2
    rw [okSeq] at h3
    rw [if_pos rfl] at h3
    have h4 := (Bool.and_eq_true _ _).mp h3 |>.2
    rw [okSeq_append] at h4
    have h5 := (Bool.and_eq_true _ _).mp h4 |>.2
    rw [okSeq] at h5
    rw [if_pos rfl] at h5
    have h6 := (Bool.and_eq_true _ _).mp h5 |>.1
    have h7 : heldAfter k true ys = false := by
      cases hcase : heldAfter k true ys
      · rfl
      · rw [hcase] at h6; exact absurd h6 (by decide)
    exact heldAfter_false_release k ys h7
  · intro held s n v rest hcmd hv hmem
    have hrel : ¬ (s &&& COMMAND_MASK = NOTE_OFF ∨
        (s &&& COMMAND_MASK = NOTE_ON ∧ v = 0)) := by
      rw [hcmd]
      simp [NOTE_ON, NOTE_OFF, hv]
    have hpr : ¬ (s &&& COMMAND_MASK = NOTE_ON ∧ n ∉ held) := by
      simp [hcmd, hmem]
    simp only [handleMessage]
    rw [if_neg hrel, if_neg hpr]
  · intro held s n rest hcmd
    constructor
    · simp only [handleMessage]
      rw [if_pos (Or.inr ⟨hcmd, trivial⟩)]
    · intro m w
      simp only [handleMessage]
      rw [if_pos (Or.inr ⟨hcmd, trivial⟩)]
      by_cases hz : (held.filter (fun x => x != n)).length = 0 <;> simp [hz]

/-- Witness for C8 at a concrete stream: press 60, release 60, press 60
again emits press–release–allReleased–press, and the events between the
two presses contain the release. -/
theorem C8_decoder_no_duplicate_press_witness :
    MidiEvent.release 60 ∈ [MidiEvent.release 60, MidiEvent.allReleased] :=
  C8_decoder_no_duplicate_press.1
    [[0x90, 60, 64], [0x80, 60, 0], [0x90, 60, 64]] 60 64 64 []
    [MidiEvent.release 60, MidiEvent.allReleased] [] (by decide)

/-- C9 counterexample: the claim "an `allReleased` event is emitted iff the
message causes the held set to transition from non-empty to empty" is
false: processing the release message `(0x80, 60, 64)` from the *empty*
held set (transition empty → empty) still emits `allReleased`. -/
theorem C9_counterexample :
    ¬ (∀ (held data : List Nat),
        MidiEvent.allReleased ∈ (handleMessage held data).2 ↔
          (held ≠ [] ∧ (handleMessage held data).1 = [])) := by
  intro hcl
  have h := (hcl [] [0x80, 60, 64]).mp (by decide)
  exact h.1 rfl

/-- C9 (amended): an `allReleased` event is emitted on processing a message
iff the message is release-class (an at-least-3-byte message that is an
explicit Note Off, or a Note On with velocity 0) and the held set is empty
after processing it — whether or not it was non-empty before. -/
theorem C9_allReleased_iff (held data : List Nat) :
    MidiEvent.allReleased ∈ (handleMessage held data).2 ↔
      ((∃ s n v rest, data = s :: n :: v :: rest ∧
          (s &&& COMMAND_MASK = NOTE_OFF ∨
            (s &&& COMMAND_MASK = NOTE_ON ∧ v = 0))) ∧
        (handleMessage held data).1 = []) := by
  match data with
  | [] => simp [handleMessage]
  | [s] => simp [handleMessage]
  | [s, n] => simp [handleMessage]
  | s :: n :: v :: rest =>
    simp only [handleMessage]
    by_cases hrel : s &&& COMMAND_MASK = NOTE_OFF ∨
        (s &&& COMMAND_MASK = NOTE_ON ∧ v = 0)
    · rw [if_pos hrel]
      by_cases hz : (held.filter (fun x => x != n)).length = 0
      · rw [if_pos hz]
        exact iff_of_true (by simp)
          ⟨⟨s, n, v, rest, rfl, hrel⟩, List.length_eq_zero.mp hz⟩
      · rw [if_neg hz]
        refine iff_of_false (by simp) ?_
        rintro ⟨-, hfil⟩
        have hfil2 : held.filter (fun x => x != n) = [] := hfil
        exact hz (by rw [hfil2]; rfl)
    · rw [if_neg hrel]
      by_cases hpr : s &&& COMMAND_MASK = NOTE_ON ∧ n ∉ held
      · rw [if_pos hpr]
        refine iff_of_false (by simp) ?_
        rintro ⟨-, happ⟩
        simp at happ
      · rw [if_neg hpr]
        refine iff_of_false (by simp) ?_
        rintro ⟨⟨s2, n2, v2, rest2, heq, hc⟩, -⟩
        obtain ⟨hs, heq2⟩ := List.cons.inj heq
        obtain ⟨hn, heq3⟩ := List.cons.inj heq2
        obtain ⟨hv, -⟩ := List.cons.inj heq3
        subst hs; subst hv
        exact hrel hc

-- ---------------------------------------------------------------------------
-- Generator: claims C1, C2, C3
-- ---------------------------------------------------------------------------

/-- C1: with the seed explicitly given, `generateScore` is a deterministic
pure function of the tuple (rangePreset, notesPerMeasure, totalNotes,
seed): two calls with equal tuples return identical xml strings and
identical expectedNotes sequences. -/
theorem C1_generateScore_deterministic (c1 c2 : ScoreConfig)
    (hr : c1.rangePreset = c2.rangePreset)
    (hn : c1.notesPerMeasure = c2.notesPerMeasure)
    (ht : c1.totalNotes = c2.totalNotes)
    (hs : c1.seed = c2.seed) :
    generateScore c1 = generateScore c2 := by
  cases c1
  cases c2
  dsimp only at hr hn ht hs
  subst hr; subst hn; subst ht; subst hs
  rfl

/-- Witness for C1 at a concrete config. -/
theorem C1_generateScore_deterministic_witness :
    generateScore (⟨⟨60, 79, Clef.treble⟩, 4, 8, 42⟩ : ScoreConfig) =
      generateScore (⟨⟨60, 79, Clef.treble⟩, 4, 8, 42⟩ : ScoreConfig) :=
  C1_generateScore_deterministic _ _ rfl rfl rfl rfl

theorem two32_pos : 0 < two32 := by norm_num [two32]

theorem xor_lt_two32 {a b : Nat} (ha : a < two32) (hb : b < two32) :
    Nat.xor a b < two32 := by
  have h32 : two32 = 2 ^ 32 := by norm_num [two32]
  rw [h32] at ha hb ⊢
  exact Nat.xor_lt_two_pow ha hb

theorem shiftRight_le_self (n k : Nat) : n >>> k ≤ n := by
  rw [Nat.shiftRight_eq_div_pow]
  exact Nat.div_le_self _ _

/-- Every PRNG output is a 32-bit value. -/
theorem rngNext_out_lt (state : Nat) : (rngNext state).2 < two32 := by
  unfold rngNext
  dsimp only
  apply xor_lt_two32
  · apply xor_lt_two32
    · exact Nat.mod_lt _ two32_pos
    · exact Nat.mod_lt _ two32_pos
  · apply lt_of_le_of_lt (shiftRight_le_self _ _)
    apply xor_lt_two32
    · exact Nat.mod_lt _ two32_pos
    · exact Nat.mod_lt _ two32_pos

/-- On a non-empty pool, `pick` always succeeds and picks a pool element. -/
theorem pick_mem (pool : List Pitch) (hne : pool ≠ []) (out : Nat)
    (hlt : out < two32) :
    ∃ p, pick pool out = some p ∧ p ∈ pool := by
  have hpos : 0 < two32 := by norm_num [two32]
  have hlen : 0 < pool.length := List.length_pos.mpr hne
  have hidx : out * pool.length / two32 < pool.length := by
    rw [Nat.div_lt_iff_lt_mul hpos]
    calc out * pool.length < two32 * pool.length :=
          Nat.mul_lt_mul_of_pos_right hlt hlen
      _ = pool.length * two32 := Nat.mul_comm _ _
  exact ⟨pool.get ⟨_, hidx⟩, List.get?_eq_get hidx, List.get_mem _ _ _⟩

/-- On a non-empty pool, the drawing loop returns exactly `n` pool
elements. -/
theorem drawPitches_some (pool : List Pitch) (hne : pool ≠ []) :
    ∀ (n state : Nat), ∃ ps, (drawPitches pool state n).1 = some ps ∧
      ps.length = n ∧ ∀ p ∈ ps, p ∈ pool := by
  intro n
  induction n with
  | zero => intro state; exact ⟨[], rfl, rfl, by simp⟩
  | succ m ih =>
    intro state
    obtain ⟨p, hp, hpm⟩ := pick_mem pool hne (rngNext state).2
      (rngNext_out_lt state)
    obtain ⟨ps, hps, hlen, hmem⟩ := ih (rngNext state).1
    refine ⟨p :: ps, ?_, by simp [hlen], ?_⟩
    · simp [drawPitches, hp, hps]
    · intro q hq
      rcases List.mem_cons.mp hq with h | h
      · exact h ▸ hpm
      · exact hmem q h

/-- The notes of a successfully built measure are the MIDI numbers of the
drawn pitches. -/
theorem buildMeasure_notes (pool : List Pitch) (c mn : Nat) (clef : Clef)
    (fst : Bool) (st : Nat) (ps : List Pitch)
    (hps : (drawPitches pool st c).1 = some ps) :
    Option.map MeasureResult.midiNotes (buildMeasure pool c mn clef fst st).1 =
      some (ps.map pitchToMidi) := by
  simp [buildMeasure, hps]

/-- On a non-empty pool with `notesPerMeasure ≥ 1` and enough fuel, the
generation loop succeeds, produces exactly `remaining.toNat` notes, and
every note is the MIDI number of a pool pitch. -/
theorem genLoop_spec (pool : List Pitch) (hne : pool ≠ []) (npm : Int)
    (hnpm : 1 ≤ npm) (clef : Clef) :
    ∀ (fuel : Nat) (remaining : Int), remaining ≤ (fuel : Int) →
      ∀ (mn st : Nat),
      ∃ xs notes,
        genLoop pool npm clef fuel remaining mn st = some (xs, notes) ∧
        notes.length = remaining.toNat ∧
        ∀ m ∈ notes, ∃ p, p ∈ pool ∧ pitchToMidi p = m := by
  intro fuel
  induction fuel with
  | zero =>
    intro remaining hrem mn st
    refine ⟨[], [], ?_, ?_, by simp⟩
    · simp only [genLoop]
      rw [if_neg (by omega)]
    · simp [Int.toNat_of_nonpos (by omega : remaining ≤ 0)]
  | succ f ih =>
    intro remaining hrem mn st
    by_cases hpos : 0 < remaining
    · have hc1 : 1 ≤ min npm remaining := le_min hnpm hpos
      have hcr : min npm remaining ≤ remaining := min_le_right _ _
      obtain ⟨ps, hps, hplen, hpmem⟩ :=
        drawPitches_some pool hne (min npm remaining).toNat st
      have hmap := buildMeasure_notes pool (min npm remaining).toNat mn clef
        (mn == 1) st ps hps
      rcases hb : (buildMeasure pool (min npm remaining).toNat mn clef
          (mn == 1) st).1 with _ | mr
      · rw [hb] at hmap; simp at hmap
      · rw [hb] at hmap
        have hmr : mr.midiNotes = ps.map pitchToMidi := by
          simpa using hmap
        obtain ⟨xs, notes, hrec, hlen2, hmem2⟩ :=
          ih (remaining - min npm remaining) (by omega) (mn + 1)
            (buildMeasure pool (min npm remaining).toNat mn clef
              (mn == 1) st).2
        refine ⟨mr.xml :: xs, mr.midiNotes ++ notes, ?_, ?_, ?_⟩
        · simp only [genLoop]
          rw [if_pos hpos, hb, hrec]
        · rw [List.length_append, hmr, List.length_map, hplen, hlen2]
          omega
        · intro m hm
          rcases List.mem_append.mp hm with h | h
          · rw [hmr] at h
            obtain ⟨p, hp, hpm⟩ := List.mem_map.mp h
            exact ⟨p, hpmem p hp, hpm⟩
          · exact hmem2 m h
    · refine ⟨[], [], ?_, ?_, by simp⟩
      · simp only [genLoop]
        rw [if_neg hpos]
      · simp [Int.toNat_of_nonpos (by omega : remaining ≤ 0)]

/-- C2: with `totalNotes ≥ 1`, `notesPerMeasure ≥ 1` and a non-empty
natural-pitch pool, `generateScore` succeeds, `expectedNotes` has length
exactly `totalNotes`, and every expected note is the MIDI key-number of a
natural pitch (octave 0–8) lying within `[minMidi, maxMidi]`. -/
theorem C2_generateScore_length_range (cfg : ScoreConfig)
    (ht : 1 ≤ cfg.totalNotes) (hn : 1 ≤ cfg.notesPerMeasure)
    (hpool : naturalPitchesInRange cfg.rangePreset.minMidi
      cfg.rangePreset.maxMidi ≠ []) :
    ∃ s, generateScore cfg = some s ∧
      (s.expectedNotes.length : Int) = cfg.totalNotes ∧
      ∀ m ∈ s.expectedNotes,
        cfg.rangePreset.minMidi ≤ (m : Int) ∧
        (m : Int) ≤ cfg.rangePreset.maxMidi ∧
        ∃ p : Pitch, p.octave ≤ 8 ∧ pitchToMidi p = m := by
  obtain ⟨xs, notes, hloop, hlen, hmem⟩ :=
    genLoop_spec
      (naturalPitchesInRange cfg.rangePreset.minMidi cfg.rangePreset.maxMidi)
      hpool cfg.notesPerMeasure hn cfg.rangePreset.clef
      cfg.totalNotes.toNat cfg.totalNotes (Int.self_le_toNat _) 1
      (cfg.seed % two32)
  have hgen : Option.map GeneratedScore.expectedNotes (generateScore cfg) =
      some notes := by
    simp [generateScore, hloop]
  rcases hg : generateScore cfg with _ | s
  · rw [hg] at hgen; simp at hgen
  · rw [hg] at hgen
    have hsn : s.expectedNotes = notes := by simpa using hgen
    refine ⟨s, rfl, ?_, ?_⟩
    · rw [hsn, hlen, Int.toNat_of_nonneg (by omega)]
    · intro m hm
      rw [hsn] at hm
      obtain ⟨p, hp, hpm⟩ := hmem m hm
      have hchar := (naturalPitchesInRange_eq_filter cfg.rangePreset.minMidi
        cfg.rangePreset.maxMidi) ▸ hp
      rw [List.mem_filter, mem_allNaturalPitches] at hchar
      obtain ⟨hoct, hrange⟩ := hchar
      rw [decide_eq_true_iff] at hrange
      rw [← hpm]
      exact ⟨hrange.1, hrange.2, p, by omega, rfl⟩

/-- Witness for C2: with range `[60, 62]`, 4 notes per measure, 2 total
notes and seed 1, generation succeeds with the guaranteed shape. -/
theorem C2_generateScore_length_range_witness :
    (1 : Int) ≤ 2 ∧ (1 : Int) ≤ 4 ∧ naturalPitchesInRange 60 62 ≠ [] ∧
    ∃ s, generateScore (⟨⟨60, 62, Clef.treble⟩, 4, 2, 1⟩ : ScoreConfig) =
        some s ∧
      (s.expectedNotes.length : Int) = 2 ∧
      ∀ m ∈ s.expectedNotes,
        (60 : Int) ≤ (m : Int) ∧ (m : Int) ≤ 62 ∧
        ∃ p : Pitch, p.octave ≤ 8 ∧ pitchToMidi p = m :=
  ⟨by norm_num, by norm_num, by decide,
    C2_generateScore_length_range (⟨⟨60, 62, Clef.treble⟩, 4, 2, 1⟩ :
      ScoreConfig) (by norm_num) (by norm_num) (by decide)⟩

/-- Drawing at least one pitch from an empty pool fails. -/
theorem drawPitches_nil_none (st k : Nat) :
    (drawPitches [] st (Nat.succ k)).1 = none := by
  rcases hrest : (drawPitches [] (rngNext st).1 k).1 with _ | ps <;>
    simp [drawPitches, pick, hrest]

/-- With an empty pool and at least one remaining note, the generation loop
fails for every fuel value: either a measure crashes on the empty pool, or
(for `notesPerMeasure ≤ 0`, where the JS loop diverges) the fuel runs
out. -/
theorem genLoop_nil_none (npm : Int) (clef : Clef) :
    ∀ (fuel : Nat) (remaining : Int), 1 ≤ remaining → ∀ (mn st : Nat),
      genLoop [] npm clef fuel remaining mn st = none := by
  intro fuel
  induction fuel with
  | zero =>
    intro remaining hrem mn st
    simp only [genLoop]
    rw [if_pos (by omega)]
  | succ f ih =>
    intro remaining hrem mn st
    cases hc : (min npm remaining).toNat with
    | zero =>
      have hminle : min npm remaining ≤ 0 := Int.toNat_eq_zero.mp hc
      simp only [genLoop]
      rw [if_pos (by omega), hc]
      rcases hb : (buildMeasure [] 0 mn clef (mn == 1) st).1 with _ | mr
      · rfl
      · rw [ih (remaining - min npm remaining) (by omega) (mn + 1)
          (buildMeasure [] 0 mn clef (mn == 1) st).2]
    | succ k =>
      simp only [genLoop]
      rw [if_pos (by omega), hc]
      have hdraw := drawPitches_nil_none st k
      simp [buildMeasure, hdraw]

/-- C3 counterexample: with `totalNotes = 0` (a non-positive note count)
`generateScore` does not fail; it silently returns a score whose
`expectedNotes` is empty — even when the pitch pool is also empty.  No
typed `InvalidRangeError` exists anywhere in the code. -/
theorem C3_counterexample :
    (generateScore (⟨⟨61, 61, Clef.treble⟩, 4, 0, 1⟩ :
        ScoreConfig)).isSome = true ∧
    Option.map GeneratedScore.expectedNotes
      (generateScore (⟨⟨61, 61, Clef.treble⟩, 4, 0, 1⟩ : ScoreConfig)) =
        some [] ∧
    naturalPitchesInRange 61 61 = [] := by
  refine ⟨rfl, ?_, by decide⟩
  rfl

/-- C3 (amended): `generateScore` performs no precondition validation: with
`totalNotes ≤ 0` it silently returns a score with empty `expectedNotes`
(never a typed failure); with an empty natural-pitch pool and
`totalNotes ≥ 1` it fails with an untyped runtime error during the first
measure (modelled as `none`) — not with a typed `InvalidRangeError` raised
before score production. -/
theorem C3_no_precondition_check :
    (∀ cfg : ScoreConfig, cfg.totalNotes ≤ 0 →
      (generateScore cfg).isSome = true ∧
      Option.map GeneratedScore.expectedNotes (generateScore cfg) =
        some []) ∧
    (∀ cfg : ScoreConfig, 1 ≤ cfg.totalNotes →
      naturalPitchesInRange cfg.rangePreset.minMidi cfg.rangePreset.maxMidi
        = [] →
      generateScore cfg = none) := by
  constructor
  · intro cfg h
    have ht : cfg.totalNotes.toNat = 0 := Int.toNat_eq_zero.mpr h
    have hloop : genLoop
        (naturalPitchesInRange cfg.rangePreset.minMidi
          cfg.rangePreset.maxMidi)
        cfg.notesPerMeasure cfg.rangePreset.clef 0 cfg.totalNotes 1
        (cfg.seed % two32) = some ([], []) := by
      simp only [genLoop]
      rw [if_neg (by omega)]
    constructor <;> simp [generateScore, ht, hloop]
  · intro cfg h hpool
    have hloop := genLoop_nil_none cfg.notesPerMeasure cfg.rangePreset.clef
      cfg.totalNotes.toNat cfg.totalNotes h 1 (cfg.seed % two32)
    simp [generateScore, hpool, hloop]

/-- Witness for C3 (amended) at concrete configs: `totalNotes = -1` yields
a silent empty score; an empty pool with `totalNotes = 3` yields a crash
(`none`). -/
theorem C3_no_precondition_check_witness :
    ((-1 : Int) ≤ 0 ∧
      (generateScore (⟨⟨60, 62, Clef.treble⟩, 4, -1, 1⟩ :
          ScoreConfig)).isSome = true ∧
      Option.map GeneratedScore.expectedNotes
        (generateScore (⟨⟨60, 62, Clef.treble⟩, 4, -1, 1⟩ : ScoreConfig)) =
          some []) ∧
    ((1 : Int) ≤ 3 ∧ naturalPitchesInRange 61 61 = [] ∧
      generateScore (⟨⟨61, 61, Clef.treble⟩, 4, 3, 1⟩ : ScoreConfig) =
        none) :=
  ⟨⟨by norm_num, C3_no_precondition_check.1 _ (by norm_num)⟩,
   ⟨by norm_num, by decide,
     C3_no_precondition_check.2 _ (by norm_num) (by decide)⟩⟩
